import Mathlib

/-!
# Verification of the finance-planner state store, persistence adapter and derived views

Shallow embedding of `src/app/page.tsx` (and the load/persist protocol around it).
JavaScript numbers are modelled as `JSNum`: either a finite rational or one of the
non-finite values `NaN`, `+Infinity`, `-Infinity`.  Float rounding is not modelled;
all finite values are exact rationals.
-/

set_option maxHeartbeats 1000000

/-- Model of a JavaScript number: NaN, the two infinities, or a finite value
(modelled as an exact rational). -/
inductive JSNum where
  | nan : JSNum
  | posInf : JSNum
  | negInf : JSNum
  | val : ℚ → JSNum
deriving Repr, DecidableEq

/-- `Number.isFinite`. -/
def JSNum.isFinite : JSNum → Bool
  | .val _ => true
  | _ => false

/-- JavaScript truthiness of a number: `NaN` and `0` are falsy, everything else truthy. -/
def JSNum.truthy : JSNum → Bool
  | .nan => false
  | .val q => q != 0
  | _ => true

/-- Unary minus on a JavaScript number. -/
def JSNum.neg : JSNum → JSNum
  | .nan => .nan
  | .posInf => .negInf
  | .negInf => .posInf
  | .val q => .val (-q)

/-- `Math.min` on two JavaScript numbers (NaN-propagating). -/
def JSNum.jsMin : JSNum → JSNum → JSNum
  | .nan, _ => .nan
  | _, .nan => .nan
  | .negInf, _ => .negInf
  | _, .negInf => .negInf
  | .posInf, b => b
  | a, .posInf => a
  | .val a, .val b => .val (min a b)

/-- `Math.max` on two JavaScript numbers (NaN-propagating). -/
def JSNum.jsMax : JSNum → JSNum → JSNum
  | .nan, _ => .nan
  | _, .nan => .nan
  | .posInf, _ => .posInf
  | _, .posInf => .posInf
  | .negInf, b => b
  | a, .negInf => a
  | .val a, .val b => .val (max a b)

/-! ## Model of ECMAScript `Number(string)` (ToNumber applied to a string) -/

/-- ECMAScript string whitespace (the characters trimmed by `ToNumber`). -/
def isJsWhitespace (c : Char) : Bool :=
  c = ' ' || c = '\t' || c = '\n' || c = '\r' || c = '\x0b' || c = '\x0c' ||
  c = ' ' || c = ' ' || c = ' ' || c = '﻿'

/-- Trim JS whitespace from both ends of a character list. -/
def trimJs (l : List Char) : List Char :=
  ((l.dropWhile isJsWhitespace).reverse.dropWhile isJsWhitespace).reverse

/-- Value of a nonempty all-digit run, `none` otherwise. -/
def decDigitsVal? (l : List Char) : Option Nat :=
  if l.isEmpty then none
  else if l.all Char.isDigit then
    some (l.foldl (fun n c => n * 10 + (c.toNat - 48)) 0)
  else none

/-- Value of a (possibly empty) all-digit run, used for the two sides of a decimal point. -/
def digitsVal (l : List Char) : Nat :=
  l.foldl (fun n c => n * 10 + (c.toNat - 48)) 0

/-- Split a character list at the decimal points. -/
def splitDot : List Char → List (List Char)
  | [] => [[]]
  | c :: rest =>
    let r := splitDot rest
    if c = '.' then [] :: r
    else
      match r with
      | h :: t => (c :: h) :: t
      | [] => [[c]]

/-- Split a character list at the first exponent marker `e`/`E`, if any. -/
def splitExp : List Char → List Char × Option (List Char)
  | [] => ([], none)
  | c :: rest =>
    if c = 'e' || c = 'E' then ([], some rest)
    else
      let p := splitExp rest
      (c :: p.1, p.2)

/-- Parse the mantissa of a decimal literal: `digits`, `digits.digits?`, or `.digits`. -/
def parseDecMantissa (l : List Char) : Option ℚ :=
  match splitDot l with
  | [ip] => (decDigitsVal? ip).map (fun n => (n : ℚ))
  | [ip, fp] =>
    if ip.isEmpty && fp.isEmpty then none
    else if ip.all Char.isDigit && fp.all Char.isDigit then
      some ((digitsVal ip : ℚ) + (digitsVal fp : ℚ) / (10 : ℚ) ^ fp.length)
    else none
  | _ => none

/-- Parse an exponent part: optional sign followed by digits. -/
def parseExpVal? (l : List Char) : Option Int :=
  match l with
  | '+' :: rest => (decDigitsVal? rest).map Int.ofNat
  | '-' :: rest => (decDigitsVal? rest).map (fun n => -(n : Int))
  | _ => (decDigitsVal? l).map Int.ofNat

/-- Apply a power-of-ten exponent to a rational. -/
def applyExp (q : ℚ) (k : Int) : ℚ :=
  if 0 ≤ k then q * (10 : ℚ) ^ k.toNat else q / (10 : ℚ) ^ (-k).toNat

/-- Parse an unsigned decimal literal with optional exponent. -/
def parseUnsignedDec (l : List Char) : Option ℚ :=
  match splitExp l with
  | (m, none) => parseDecMantissa m
  | (m, some ex) =>
    match parseDecMantissa m, parseExpVal? ex with
    | some q, some k => some (applyExp q k)
    | _, _ => none

/-- Value of a digit in the given radix, `none` if it is not a digit of that radix. -/
def digitInRadix? (radix : Nat) (c : Char) : Option Nat :=
  let v : Option Nat :=
    if c.isDigit then some (c.toNat - 48)
    else if 'a' ≤ c && c ≤ 'f' then some (c.toNat - 87)
    else if 'A' ≤ c && c ≤ 'F' then some (c.toNat - 55)
    else none
  match v with
  | some d => if d < radix then some d else none
  | none => none

/-- Value of a nonempty digit run in the given radix, `none` otherwise. -/
def radixVal? (radix : Nat) (l : List Char) : Option Nat :=
  if l.isEmpty then none
  else
    l.foldl
      (fun acc c =>
        match acc, digitInRadix? radix c with
        | some n, some d => some (n * radix + d)
        | _, _ => none)
      (some 0)

/-- Interpret an optional radix value as a JavaScript number (`none` is `NaN`). -/
def optNatToJS : Option Nat → JSNum
  | some n => .val n
  | none => .nan

/-- Parse an unsigned decimal literal or the literal `Infinity`. -/
def parseUnsignedDecOrInf (l : List Char) : JSNum :=
  if l = "Infinity".toList then .posInf
  else
    match parseUnsignedDec l with
    | some q => .val q
    | none => .nan

/-- Parse an optionally signed decimal literal or signed `Infinity`. -/
def parseSignedDec (l : List Char) : JSNum :=
  match l with
  | '-' :: rest => (parseUnsignedDecOrInf rest).neg
  | '+' :: rest => parseUnsignedDecOrInf rest
  | _ => parseUnsignedDecOrInf l

/-- Parse a whitespace-trimmed numeric string per the `StringNumericLiteral` grammar:
empty is `0`; `0x`/`0o`/`0b` radix literals (unsigned); otherwise a signed decimal. -/
def parseTrimmed (l : List Char) : JSNum :=
  match l with
  | [] => .val 0
  | '0' :: c :: rest =>
    if c = 'x' || c = 'X' then optNatToJS (radixVal? 16 rest)
    else if c = 'o' || c = 'O' then optNatToJS (radixVal? 8 rest)
    else if c = 'b' || c = 'B' then optNatToJS (radixVal? 2 rest)
    else parseSignedDec l
  | _ => parseSignedDec l

/-- Model of the JavaScript builtin `Number(s)` for a string argument. -/
def jsStringToNumber (s : String) : JSNum :=
  parseTrimmed (trimJs s.toList)

/-! ## The numeric parser of the application (`parseNumber` in `page.tsx`) -/

/-- `input.replace(/[^0-9.\-]/g, "")`: keep only digits, `.` and `-`. -/
def stripNonNumeric (s : String) : String :=
  ⟨s.toList.filter (fun c => c.isDigit || c = '.' || c = '-')⟩

/-- `parseNumber` from `page.tsx`: strip non-numeric characters, convert with
`Number`, and coerce any non-finite result to `0`. -/
def parseNumber (s : String) : JSNum :=
  let n := jsStringToNumber (stripNonNumeric s)
  if n.isFinite then n else .val 0

/-- The rational carried by `parseNumber` (which is always finite). -/
def parseNumberQ (s : String) : ℚ :=
  match parseNumber s with
  | .val q => q
  | _ => 0

/-! ## The projection-months input handler (`setProjectionMonths` onChange) -/

/-- `Math.max(1, Math.min(360, Number(e.target.value) || 1))` from the months input. -/
def projectionMonthsFromInput (s : String) : JSNum :=
  let n := jsStringToNumber s
  let m := if n.truthy then n else .val 1
  JSNum.jsMax (.val 1) (JSNum.jsMin (.val 360) m)

/-! ## Data model (`MonthlyEntry`, `SavingsHolding`, `InsuranceItem`, `FinanceState`) -/

/-- One recorded month's savings/expense pair (`MonthlyEntry` in `page.tsx`).
Stored numeric fields are always finite, so they are plain rationals here. -/
structure MonthlyEntry where
  id : String
  month : String
  savings : ℚ
  expenses : ℚ
  savingsType : Option String := none
  expenseType : Option String := none
  comment : Option String := none
deriving Repr, DecidableEq

/-- One categorized chunk of current savings (`SavingsHolding` in `page.tsx`). -/
structure SavingsHolding where
  id : String
  type : String
  amount : ℚ
deriving Repr, DecidableEq

/-- One insurance record (`InsuranceItem` in `page.tsx`); the type enum is kept as a string. -/
structure InsuranceItem where
  id : String
  type : String
  coveredPeople : String
  limit : ℚ
deriving Repr, DecidableEq

/-- The root aggregate (`FinanceState` in `page.tsx`). -/
structure FinanceState where
  myMonthlyIncome : ℚ
  spouseMonthlyIncome : ℚ
  myTotalSavings : ℚ
  spouseTotalSavings : ℚ
  entries : List MonthlyEntry
  savingsHoldings : List SavingsHolding
  insurances : List InsuranceItem
deriving Repr, DecidableEq

/-- `defaultState` from `page.tsx`. -/
def defaultState : FinanceState :=
  { myMonthlyIncome := 0
    spouseMonthlyIncome := 0
    myTotalSavings := 0
    spouseTotalSavings := 0
    entries := []
    savingsHoldings := []
    insurances := [] }

/-! ## Scalar-field mutator (`upsertNumber`) -/

/-- The four numeric top-level keys `upsertNumber` is used with. -/
inductive ScalarKey where
  | myMonthlyIncome
  | spouseMonthlyIncome
  | myTotalSavings
  | spouseTotalSavings
deriving Repr, DecidableEq

/-- `upsertNumber(key, value)`: replace one scalar field, everything else untouched. -/
def upsertNumber (k : ScalarKey) (v : ℚ) (st : FinanceState) : FinanceState :=
  match k with
  | .myMonthlyIncome => { st with myMonthlyIncome := v }
  | .spouseMonthlyIncome => { st with spouseMonthlyIncome := v }
  | .myTotalSavings => { st with myTotalSavings := v }
  | .spouseTotalSavings => { st with spouseTotalSavings := v }

/-- Read the scalar field selected by a key. -/
def scalarField (k : ScalarKey) (st : FinanceState) : ℚ :=
  match k with
  | .myMonthlyIncome => st.myMonthlyIncome
  | .spouseMonthlyIncome => st.spouseMonthlyIncome
  | .myTotalSavings => st.myTotalSavings
  | .spouseTotalSavings => st.spouseTotalSavings

/-! ## Entry upsert and removal (`addOrUpdateEntry`, `removeEntry`) -/

/-- A `Partial<MonthlyEntry>` argument: every field optional; the numeric fields may
carry any JavaScript number (including non-finite ones). -/
structure PartialEntry where
  id : Option String := none
  month : Option String := none
  savings : Option JSNum := none
  expenses : Option JSNum := none
  savingsType : Option String := none
  expenseType : Option String := none
  comment : Option String := none
deriving Repr, DecidableEq

/-- `Number.isFinite(x) ? x : 0` for a possibly-absent JavaScript number. -/
def finiteOr0 : Option JSNum → ℚ
  | some (.val q) => q
  | _ => 0

/-- JavaScript truthiness of a possibly-absent number (`undefined` is falsy). -/
def truthyOpt : Option JSNum → Bool
  | some n => n.truthy
  | none => false

/-- The `next` entry built by `addOrUpdateEntry`: defaults filled exactly as in the source.
`freshId` stands for the `crypto.randomUUID()` result and `nowMonth` for
`new Date().toISOString().slice(0, 7)`. -/
def buildEntry (freshId nowMonth : String) (p : PartialEntry) : MonthlyEntry :=
  { id := p.id.getD freshId
    month := p.month.getD nowMonth
    savings := finiteOr0 p.savings
    expenses := finiteOr0 p.expenses
    savingsType := p.savingsType.orElse (fun _ => if truthyOpt p.savings then some "MF" else none)
    expenseType := p.expenseType.orElse (fun _ => if truthyOpt p.expenses then some "Misc" else none)
    comment := some (p.comment.getD "") }

/-- `addOrUpdateEntry`: using the id `entry?.id ?? crypto.randomUUID()`, replace in
place when that id already occurs among the entries, else prepend the built entry. -/
def addOrUpdateEntry (freshId nowMonth : String) (p : PartialEntry) (st : FinanceState) :
    FinanceState :=
  { st with
    entries :=
      if st.entries.any (fun e => e.id == p.id.getD freshId) then
        st.entries.map
          (fun e => if e.id == p.id.getD freshId then buildEntry freshId nowMonth p else e)
      else buildEntry freshId nowMonth p :: st.entries }

/-- `removeEntry(id)`: drop the matching entry. -/
def removeEntry (i : String) (st : FinanceState) : FinanceState :=
  { st with entries := st.entries.filter (fun e => e.id != i) }

/-! ## Derived totals and savings projection -/

/-- `combinedTotalSavings = myTotalSavings + spouseTotalSavings`. -/
def combinedTotalSavings (st : FinanceState) : ℚ :=
  st.myTotalSavings + st.spouseTotalSavings

/-- `totalPlannedMonthlySavings`: reduce over all entries, summing `savings`. -/
def totalPlannedMonthlySavings (st : FinanceState) : ℚ :=
  st.entries.foldl (fun s e => s + e.savings) 0

/-- `projectedSavingsOnly = combinedTotalSavings + projectionMonths * totalPlannedMonthlySavings`. -/
def projectedSavingsOnly (months : ℚ) (st : FinanceState) : ℚ :=
  combinedTotalSavings st + months * totalPlannedMonthlySavings st

/-! ## Persistence adapter: stored documents and the sign-in load protocol -/

/-- A persisted document (`Partial<FinanceState>`): what a Firestore document or the
local-storage JSON may hold; any field may be absent. -/
structure StoredDoc where
  myMonthlyIncome : Option ℚ := none
  spouseMonthlyIncome : Option ℚ := none
  myTotalSavings : Option ℚ := none
  spouseTotalSavings : Option ℚ := none
  entries : Option (List MonthlyEntry) := none
  savingsHoldings : Option (List SavingsHolding) := none
  insurances : Option (List InsuranceItem) := none
deriving Repr, DecidableEq

/-- Adoption of an existing remote document:
`{ ...defaultState, ...data, entries: data.entries ?? [], savingsHoldings: ..., insurances: ... }`. -/
def adoptRemote (d : StoredDoc) : FinanceState :=
  { myMonthlyIncome := d.myMonthlyIncome.getD defaultState.myMonthlyIncome
    spouseMonthlyIncome := d.spouseMonthlyIncome.getD defaultState.spouseMonthlyIncome
    myTotalSavings := d.myTotalSavings.getD defaultState.myTotalSavings
    spouseTotalSavings := d.spouseTotalSavings.getD defaultState.spouseTotalSavings
    entries := d.entries.getD []
    savingsHoldings := d.savingsHoldings.getD []
    insurances := d.insurances.getD [] }

/-- Adoption of a local-storage document (both the migration path and the anonymous path):
`{ ...defaultState, ...parsed, entries: parsed.entries ?? [] }`.  The spread over
`defaultState` supplies `[]` for any absent sequence field. -/
def adoptLocal (d : StoredDoc) : FinanceState :=
  { myMonthlyIncome := d.myMonthlyIncome.getD defaultState.myMonthlyIncome
    spouseMonthlyIncome := d.spouseMonthlyIncome.getD defaultState.spouseMonthlyIncome
    myTotalSavings := d.myTotalSavings.getD defaultState.myTotalSavings
    spouseTotalSavings := d.spouseTotalSavings.getD defaultState.spouseTotalSavings
    entries := d.entries.getD []
    savingsHoldings := d.savingsHoldings.getD defaultState.savingsHoldings
    insurances := d.insurances.getD defaultState.insurances }

/-- Serializing a full `FinanceState` (JSON.stringify / `setDoc` of the whole state):
every field is present in the resulting document. -/
def toStoredDoc (st : FinanceState) : StoredDoc :=
  { myMonthlyIncome := some st.myMonthlyIncome
    spouseMonthlyIncome := some st.spouseMonthlyIncome
    myTotalSavings := some st.myTotalSavings
    spouseTotalSavings := some st.spouseTotalSavings
    entries := some st.entries
    savingsHoldings := some st.savingsHoldings
    insurances := some st.insurances }

/-- The world visible to the startup protocol: the per-user remote document (if it
exists), the local-storage slot (if present and parseable), and the in-memory state. -/
structure World where
  remoteDoc : Option StoredDoc
  localStore : Option StoredDoc
  appState : FinanceState
deriving Repr, DecidableEq

/-- One signed-in run of the `onAuthStateChanged` startup protocol: if the remote
document exists adopt it; otherwise, if local storage holds a state, adopt it and
write it to the remote document (the one-time migration); otherwise do nothing. -/
def signInLoad (w : World) : World :=
  match w.remoteDoc with
  | some d => { w with appState := adoptRemote d }
  | none =>
    match w.localStore with
    | some parsed => { w with appState := adoptLocal parsed, remoteDoc := some parsed }
    | none => w

/-! ## Category aggregation (`ExpensesPie`, `HoldingsPie`, `ProjectionByType`)

A JavaScript `Map<string, number>` built by `map.set(key, (map.get(key) ?? 0) + v)`
is modelled as an insertion-ordered association list: `mapAdd` updates the first
entry with the key in place, or appends a new entry at the end. -/

/-- `map.set(key, (map.get(key) ?? 0) + v)` on an insertion-ordered association list. -/
def mapAdd : List (String × ℚ) → String → ℚ → List (String × ℚ)
  | [], k, v => [(k, v)]
  | p :: rest, k, v =>
    if p.1 = k then (p.1, p.2 + v) :: rest else p :: mapAdd rest k v

/-- `map.get(t) ?? 0`. -/
def lookupD (m : List (String × ℚ)) (t : String) : ℚ :=
  match m.find? (fun p => p.1 == t) with
  | some p => p.2
  | none => 0

/-- The common grouping loop of the three aggregations: for each element passing
`cond`, add `val e` into the bucket named `key e`. -/
def groupAccum (cond : α → Bool) (key : α → String) (val : α → ℚ) (l : List α) :
    List (String × ℚ) :=
  l.foldl (fun m e => if cond e then mapAdd m (key e) (val e) else m) []

/-- The expenses-by-category map of `ExpensesPie`: only entries with `expenses > 0`
contribute, under their `expenseType` (default `"Misc"`). -/
def expensesByType (entries : List MonthlyEntry) : List (String × ℚ) :=
  groupAccum (fun e => decide (0 < e.expenses)) (fun e => e.expenseType.getD "Misc")
    (fun e => e.expenses) entries

/-- The holdings-by-type map (built identically in `HoldingsPie`, `SavingsHoldingList`
and `ProjectionByType`): every holding contributes, no filter. -/
def holdingsByType (holdings : List SavingsHolding) : List (String × ℚ) :=
  groupAccum (fun _ => true) (fun h => h.type) (fun h => h.amount) holdings

/-- The monthly-savings-by-type map of `ProjectionByType`: only entries with
`savings > 0` contribute, under their `savingsType` (default `"Unspecified"`). -/
def monthlySavingsByType (entries : List MonthlyEntry) : List (String × ℚ) :=
  groupAccum (fun e => decide (0 < e.savings)) (fun e => e.savingsType.getD "Unspecified")
    (fun e => e.savings) entries

/-! ## Projection-by-type rows -/

/-- One row of the projection-by-type table. -/
structure ProjRow where
  type : String
  current : ℚ
  monthly : ℚ
  projected : ℚ
deriving Repr, DecidableEq

/-- Insert a row into a list sorted by descending `projected`. -/
def insertRowDesc (r : ProjRow) : List ProjRow → List ProjRow
  | [] => [r]
  | x :: xs => if x.projected ≤ r.projected then r :: x :: xs else x :: insertRowDesc r xs

/-- Stable sort by descending `projected` (the `sort((a, b) => b.projected - a.projected)`). -/
def sortRowsDesc : List ProjRow → List ProjRow
  | [] => []
  | x :: xs => insertRowDesc x (sortRowsDesc xs)

/-- JavaScript `new Set(l)` iteration order: first occurrences, in order. -/
def jsSetDedup (l : List String) : List String :=
  l.foldl (fun acc k => if k ∈ acc then acc else acc ++ [k]) []

/-- The row built for one type `t` in `ProjectionByType`. -/
def projRowFor (months : ℚ) (holdings : List SavingsHolding) (entries : List MonthlyEntry)
    (t : String) : ProjRow :=
  { type := t
    current := lookupD (holdingsByType holdings) t
    monthly := lookupD (monthlySavingsByType entries) t
    projected := lookupD (holdingsByType holdings) t + months * lookupD (monthlySavingsByType entries) t }

/-- The `rows` of `ProjectionByType`: one row for each type in the union of the two
maps' key sets, sorted by descending `projected`. -/
def projectionRows (months : ℚ) (holdings : List SavingsHolding) (entries : List MonthlyEntry) :
    List ProjRow :=
  sortRowsDesc
    ((jsSetDedup
        ((holdingsByType holdings).map Prod.fst ++ (monthlySavingsByType entries).map Prod.fst)).map
      (projRowFor months holdings entries))

/-- Total holding amount recorded under a type (the spec-side sum). -/
def holdingAmountForType (holdings : List SavingsHolding) (t : String) : ℚ :=
  ((holdings.filter (fun h => h.type == t)).map (fun h => h.amount)).sum

/-- Total monthly savings contributed to a type: entries with `savings > 0` whose
savings type (default `"Unspecified"`) is `t` (the spec-side sum). -/
def monthlySavingsForType (entries : List MonthlyEntry) (t : String) : ℚ :=
  ((entries.filter (fun e => decide (0 < e.savings) && (e.savingsType.getD "Unspecified" == t))).map
    (fun e => e.savings)).sum

/-! ## Helper lemmas -/

/-- `parseNumber` always yields a finite JavaScript number. -/
theorem parseNumber_isFinite (s : String) : (parseNumber s).isFinite = true := by
  unfold parseNumber
  cases h : jsStringToNumber (stripNonNumeric s) <;> simp [JSNum.isFinite, h]

/-- `parseNumber` carries exactly the rational `parseNumberQ`. -/
theorem parseNumber_eq_val (s : String) : parseNumber s = .val (parseNumberQ s) := by
  unfold parseNumberQ
  have h := parseNumber_isFinite s
  cases hp : parseNumber s <;> simp_all [JSNum.isFinite]

/-- The clamping pipeline of the months input lands in `[1, 360]` for every number. -/
theorem clampMonths_mem (n : JSNum) :
    ∃ q : ℚ, JSNum.jsMax (.val 1) (JSNum.jsMin (.val 360) (if n.truthy then n else .val 1)) = .val q
      ∧ 1 ≤ q ∧ q ≤ 360 := by
  cases n with
  | nan => exact ⟨1, by norm_num [JSNum.truthy, JSNum.jsMin, JSNum.jsMax, min_def, max_def]⟩
  | posInf => exact ⟨360, by norm_num [JSNum.truthy, JSNum.jsMin, JSNum.jsMax, max_def]⟩
  | negInf => exact ⟨1, by norm_num [JSNum.truthy, JSNum.jsMin, JSNum.jsMax]⟩
  | val q =>
    by_cases hq : q = 0
    · exact ⟨1, by norm_num [JSNum.truthy, JSNum.jsMin, JSNum.jsMax, hq, min_def, max_def]⟩
    · refine ⟨max 1 (min 360 q), ?_, le_max_left _ _, ?_⟩
      · simp [JSNum.truthy, hq, JSNum.jsMin, JSNum.jsMax]
      · exact max_le (by norm_num) (min_le_left _ _)

/-- Folding `+ f e` over a list starting from `c` is `c` plus the sum of the images. -/
theorem foldl_add_eq_sum (f : α → ℚ) :
    ∀ (l : List α) (c : ℚ), l.foldl (fun s e => s + f e) c = c + (l.map f).sum := by
  intro l
  induction l with
  | nil => intro c; simp
  | cons e l ih => intro c; simp [ih, add_assoc]

/-- Lookup in the empty map. -/
theorem lookupD_nil (t : String) : lookupD [] t = 0 := rfl

/-- Lookup steps through a cons cell. -/
theorem lookupD_cons (p : String × ℚ) (m : List (String × ℚ)) (t : String) :
    lookupD (p :: m) t = if p.1 = t then p.2 else lookupD m t := by
  by_cases h : p.1 = t
  · have hb : (p.1 == t) = true := beq_iff_eq.mpr h
    simp [lookupD, List.find?, hb, h]
  · have hb : (p.1 == t) = false := beq_eq_false_iff_ne.mpr h
    simp [lookupD, List.find?, hb, h]

/-- Looking up after a `mapAdd` adds `v` exactly when the keys agree. -/
theorem lookupD_mapAdd (k : String) (v : ℚ) :
    ∀ (m : List (String × ℚ)) (t : String),
      lookupD (mapAdd m k v) t = lookupD m t + (if t = k then v else 0) := by
  intro m
  induction m with
  | nil =>
    intro t
    by_cases h : t = k
    · simp [mapAdd, lookupD_cons, lookupD_nil, h]
    · have h' : ¬(k = t) := fun hh => h hh.symm
      simp [mapAdd, lookupD_cons, lookupD_nil, h, h']
  | cons p m ih =>
    intro t
    by_cases hpk : p.1 = k
    · by_cases hpt : p.1 = t
      · have htk : t = k := by rw [← hpt, hpk]
        simp [mapAdd, hpk, lookupD_cons, hpt, htk]
      · have htk : ¬(t = k) := fun hh => hpt (by rw [hpk, ← hh])
        have hkt : ¬(k = t) := fun hh => htk hh.symm
        simp [mapAdd, hpk, lookupD_cons, hpt, htk, hkt]
    · by_cases hpt : p.1 = t
      · have htk : ¬(t = k) := fun hh => hpk (by rw [hpt, hh])
        simp [mapAdd, hpk, lookupD_cons, hpt, htk]
      · simpa [mapAdd, hpk, lookupD_cons, hpt] using ih t

/-- Key list of `mapAdd`: unchanged if the key is present, else the key is appended. -/
theorem keys_mapAdd (k : String) (v : ℚ) :
    ∀ m : List (String × ℚ),
      (mapAdd m k v).map Prod.fst =
        if k ∈ m.map Prod.fst then m.map Prod.fst else m.map Prod.fst ++ [k] := by
  intro m
  induction m with
  | nil => simp [mapAdd]
  | cons p m ih =>
    by_cases hpk : p.1 = k
    · simp [mapAdd, hpk]
    · have hkp : ¬(k = p.1) := fun hh => hpk hh.symm
      by_cases hk : k ∈ m.map Prod.fst <;> simp [mapAdd, hpk, ih, hk, hkp]

/-- A key occurs in `mapAdd m k v` exactly when it occurs in `m` or equals `k`. -/
theorem mem_keys_mapAdd (k : String) (v : ℚ) (m : List (String × ℚ)) (t : String) :
    t ∈ (mapAdd m k v).map Prod.fst ↔ t ∈ m.map Prod.fst ∨ t = k := by
  rw [keys_mapAdd]
  by_cases hk : k ∈ m.map Prod.fst
  · simp only [hk, if_pos]
    constructor
    · exact .inl
    · rintro (h | rfl)
      · exact h
      · exact hk
  · simp [hk, List.mem_append]

/-- `mapAdd` preserves key-distinctness. -/
theorem nodup_keys_mapAdd (k : String) (v : ℚ) (m : List (String × ℚ))
    (h : (m.map Prod.fst).Nodup) : ((mapAdd m k v).map Prod.fst).Nodup := by
  rw [keys_mapAdd]
  by_cases hk : k ∈ m.map Prod.fst
  · simpa [hk] using h
  · simp [hk, List.nodup_append, h, List.disjoint_left]

/-- Lookup in a grouping fold, generalized over the starting map. -/
theorem lookupD_groupAccum_aux (cond : α → Bool) (key : α → String) (val : α → ℚ) :
    ∀ (l : List α) (m : List (String × ℚ)) (t : String),
      lookupD (l.foldl (fun m e => if cond e then mapAdd m (key e) (val e) else m) m) t
        = lookupD m t + ((l.filter (fun e => cond e && (key e == t))).map val).sum := by
  intro l
  induction l with
  | nil => intro m t; simp
  | cons e l ih =>
    intro m t
    by_cases hc : cond e = true
    · by_cases hk : key e = t
      · have hb : (cond e && (key e == t)) = true := by simp [hc, hk]
        have htk : t = key e := hk.symm
        rw [List.foldl_cons, if_pos hc, ih, lookupD_mapAdd, if_pos htk]
        simp only [List.filter_cons, hb, if_true, List.map_cons, List.sum_cons]
        ring
      · have hb : (cond e && (key e == t)) = false := by simp [hk]
        have htk : ¬(t = key e) := fun hh => hk hh.symm
        rw [List.foldl_cons, if_pos hc, ih, lookupD_mapAdd, if_neg htk]
        simp [List.filter_cons, hb]
    · have hb : (cond e && (key e == t)) = false := by simp [hc]
      rw [List.foldl_cons, if_neg hc, ih]
      simp [List.filter_cons, hb]

/-- Lookup in a group map is the sum of the matching contributions. -/
theorem lookupD_groupAccum (cond : α → Bool) (key : α → String) (val : α → ℚ) (l : List α)
    (t : String) :
    lookupD (groupAccum cond key val l) t
      = ((l.filter (fun e => cond e && (key e == t))).map val).sum := by
  simpa [lookupD_nil] using lookupD_groupAccum_aux cond key val l [] t

/-- Key membership in a grouping fold, generalized over the starting map. -/
theorem mem_keys_groupAccum_aux (cond : α → Bool) (key : α → String) (val : α → ℚ) :
    ∀ (l : List α) (m : List (String × ℚ)) (t : String),
      (t ∈ (l.foldl (fun m e => if cond e then mapAdd m (key e) (val e) else m) m).map Prod.fst)
        ↔ t ∈ m.map Prod.fst ∨ ∃ e ∈ l, cond e = true ∧ key e = t := by
  intro l
  induction l with
  | nil => intro m t; simp
  | cons e l ih =>
    intro m t
    by_cases hc : cond e = true
    · rw [List.foldl_cons, if_pos hc, ih, mem_keys_mapAdd]
      constructor
      · rintro ((h | rfl) | ⟨f, hf, hcf, hkf⟩)
        · exact .inl h
        · exact .inr ⟨e, List.mem_cons_self .., hc, rfl⟩
        · exact .inr ⟨f, List.mem_cons_of_mem _ hf, hcf, hkf⟩
      · rintro (h | ⟨f, hf, hcf, hkf⟩)
        · exact .inl (.inl h)
        · rcases List.mem_cons.mp hf with rfl | hf
          · exact .inl (.inr hkf.symm)
          · exact .inr ⟨f, hf, hcf, hkf⟩
    · rw [List.foldl_cons, if_neg hc, ih]
      constructor
      · rintro (h | ⟨f, hf, hcf, hkf⟩)
        · exact .inl h
        · exact .inr ⟨f, List.mem_cons_of_mem _ hf, hcf, hkf⟩
      · rintro (h | ⟨f, hf, hcf, hkf⟩)
        · exact .inl h
        · rcases List.mem_cons.mp hf with rfl | hf
          · exact absurd hcf hc
          · exact .inr ⟨f, hf, hcf, hkf⟩

/-- A group exists exactly when some element contributes to it. -/
theorem mem_keys_groupAccum (cond : α → Bool) (key : α → String) (val : α → ℚ) (l : List α)
    (t : String) :
    t ∈ (groupAccum cond key val l).map Prod.fst ↔ ∃ e ∈ l, cond e = true ∧ key e = t := by
  simpa using mem_keys_groupAccum_aux cond key val l [] t

/-- The group map has no duplicate keys. -/
theorem nodup_keys_groupAccum (cond : α → Bool) (key : α → String) (val : α → ℚ) (l : List α) :
    ((groupAccum cond key val l).map Prod.fst).Nodup := by
  suffices h : ∀ (l : List α) (m : List (String × ℚ)), (m.map Prod.fst).Nodup →
      ((l.foldl (fun m e => if cond e then mapAdd m (key e) (val e) else m) m).map Prod.fst).Nodup by
    exact h l [] (by simp)
  intro l
  induction l with
  | nil => intro m hm; simpa using hm
  | cons e l ih =>
    intro m hm
    rw [List.foldl_cons]
    by_cases hc : cond e = true
    · rw [if_pos hc]
      exact ih _ (nodup_keys_mapAdd _ _ _ hm)
    · rw [if_neg hc]
      exact ih _ hm

/-- Membership in the JavaScript-`Set` dedup, generalized over the accumulator. -/
theorem mem_jsSetDedup_aux :
    ∀ (l acc : List String) (t : String),
      t ∈ l.foldl (fun acc k => if k ∈ acc then acc else acc ++ [k]) acc ↔ t ∈ acc ∨ t ∈ l := by
  intro l
  induction l with
  | nil => intro acc t; simp
  | cons k l ih =>
    intro acc t
    rw [List.foldl_cons]
    by_cases hk : k ∈ acc
    · rw [if_pos hk, ih]
      constructor
      · rintro (h | h)
        · exact .inl h
        · exact .inr (List.mem_cons_of_mem _ h)
      · rintro (h | h)
        · exact .inl h
        · rcases List.mem_cons.mp h with rfl | h
          · exact .inl hk
          · exact .inr h
    · rw [if_neg hk, ih]
      simp [List.mem_append, List.mem_cons, or_assoc]

/-- Membership in the dedup is membership in the original list. -/
theorem mem_jsSetDedup (l : List String) (t : String) : t ∈ jsSetDedup l ↔ t ∈ l := by
  simpa [jsSetDedup] using mem_jsSetDedup_aux l [] t

/-- The dedup has no duplicates. -/
theorem nodup_jsSetDedup (l : List String) : (jsSetDedup l).Nodup := by
  suffices h : ∀ (l acc : List String), acc.Nodup →
      (l.foldl (fun acc k => if k ∈ acc then acc else acc ++ [k]) acc).Nodup by
    exact h l [] (by simp)
  intro l
  induction l with
  | nil => intro acc hacc; simpa using hacc
  | cons k l ih =>
    intro acc hacc
    rw [List.foldl_cons]
    by_cases hk : k ∈ acc
    · rw [if_pos hk]; exact ih _ hacc
    · rw [if_neg hk]
      exact ih _ (by simp [List.nodup_append, hacc, List.disjoint_left, hk])

/-- Inserting a row is a permutation of consing it. -/
theorem perm_insertRowDesc (r : ProjRow) : ∀ l, (insertRowDesc r l).Perm (r :: l) := by
  intro l
  induction l with
  | nil => simp [insertRowDesc]
  | cons x xs ih =>
    rw [insertRowDesc]
    by_cases h : x.projected ≤ r.projected
    · rw [if_pos h]
    · rw [if_neg h]
      exact (ih.cons x).trans (List.Perm.swap r x xs)

/-- The descending sort is a permutation of its input. -/
theorem perm_sortRowsDesc : ∀ l, (sortRowsDesc l).Perm l := by
  intro l
  induction l with
  | nil => simp [sortRowsDesc]
  | cons x xs ih =>
    rw [sortRowsDesc]
    exact (perm_insertRowDesc x (sortRowsDesc xs)).trans (ih.cons x)

/-- Inserting into a descending-sorted list keeps it descending-sorted. -/
theorem pairwise_insertRowDesc (r : ProjRow) :
    ∀ l, l.Pairwise (fun a b => b.projected ≤ a.projected) →
      (insertRowDesc r l).Pairwise (fun a b => b.projected ≤ a.projected) := by
  intro l
  induction l with
  | nil => intro _; simp [insertRowDesc]
  | cons x xs ih =>
    intro hp
    rw [List.pairwise_cons] at hp
    obtain ⟨hx, hxs⟩ := hp
    rw [insertRowDesc]
    by_cases h : x.projected ≤ r.projected
    · rw [if_pos h]
      refine List.Pairwise.cons ?_ (List.Pairwise.cons hx hxs)
      intro b hb
      rcases List.mem_cons.mp hb with rfl | hb
      · exact h
      · exact le_trans (hx b hb) h
    · rw [if_neg h]
      refine List.Pairwise.cons ?_ (ih hxs)
      intro b hb
      rcases List.mem_cons.mp ((perm_insertRowDesc r xs).mem_iff.mp hb) with rfl | hb
      · exact le_of_lt (not_le.mp h)
      · exact hx b hb

/-- The sort output is descending-sorted by `projected`. -/
theorem pairwise_sortRowsDesc :
    ∀ l, (sortRowsDesc l).Pairwise (fun a b => b.projected ≤ a.projected) := by
  intro l
  induction l with
  | nil => simp [sortRowsDesc]
  | cons x xs ih =>
    rw [sortRowsDesc]
    exact pairwise_insertRowDesc x _ ih

/-- Stripping non-numeric characters is idempotent. -/
theorem stripNonNumeric_idem (s : String) :
    stripNonNumeric (stripNonNumeric s) = stripNonNumeric s := by
  unfold stripNonNumeric
  apply congrArg String.mk
  rw [show (String.mk (s.toList.filter (fun c => c.isDigit || c = '.' || c = '-'))).toList
      = s.toList.filter (fun c => c.isDigit || c = '.' || c = '-') from rfl]
  rw [List.filter_filter]
  simp

/-- `parseNumber` only looks at the stripped characters. -/
theorem parseNumber_of_strip (s : String) :
    parseNumber (stripNonNumeric s) = parseNumber s := by
  unfold parseNumber
  rw [stripNonNumeric_idem]

/-- Value of the stripped example string. -/
theorem parseNumber_example_decimal : parseNumber "1,234.50 INR" = .val (2469 / 2) := by
  have h : parseNumber "1,234.50 INR"
      = .val ((digitsVal ['1', '2', '3', '4'] : ℚ) + (digitsVal ['5', '0'] : ℚ) / (10 : ℚ) ^ 2) := rfl
  have h1 : digitsVal ['1', '2', '3', '4'] = 1234 := rfl
  have h2 : digitsVal ['5', '0'] = 50 := rfl
  rw [h, h1, h2]
  norm_num

/-! ## Claims -/

/-- C1: for every input string, `parseNumber` yields a finite number (never NaN, never
an error value); it strips every character other than digits, `.` and `-` before the
numeric conversion; `parseNumber "abc" = 0` and `parseNumber "1,234.50 INR" = 1234.50`. -/
theorem c1_parseNumber_always_finite (s : String) :
    (parseNumber s).isFinite = true ∧
    parseNumber (stripNonNumeric s) = parseNumber s ∧
    stripNonNumeric "1,234.50 INR" = "1234.50" ∧
    parseNumber "abc" = .val 0 ∧
    parseNumber "1,234.50 INR" = .val (2469 / 2) :=
  ⟨parseNumber_isFinite s, parseNumber_of_strip s, by decide, by decide,
    parseNumber_example_decimal⟩

/-- The example state of C4: one entry with savings 10000, and manual total savings
summing to 100000. -/
def c4ExampleState : FinanceState :=
  { defaultState with
    myTotalSavings := 60000
    spouseTotalSavings := 40000
    entries := [{ id := "e1", month := "2025-01", savings := 10000, expenses := 4000,
                  savingsType := some "MF", expenseType := some "Misc", comment := some "" }] }

/-- C4: `projectedSavingsOnly months = (myTotalSavings + spouseTotalSavings) +
months * Σ savings over ALL entries`; with one entry of savings 10000, combined total
savings 100000 and months = 6 the projection is 160000; on the empty state it is 0. -/
theorem c4_projectedSavingsOnly_linear (st : FinanceState) (months : ℚ) :
    projectedSavingsOnly months st
        = (st.myTotalSavings + st.spouseTotalSavings)
          + months * (st.entries.map (fun e => e.savings)).sum ∧
    projectedSavingsOnly 6 c4ExampleState = 160000 ∧
    projectedSavingsOnly months defaultState = 0 := by
  refine ⟨?_, ?_, ?_⟩
  · unfold projectedSavingsOnly combinedTotalSavings totalPlannedMonthlySavings
    rw [foldl_add_eq_sum]
    ring
  · unfold projectedSavingsOnly combinedTotalSavings totalPlannedMonthlySavings
    simp [c4ExampleState, defaultState]
    norm_num
  · simp [projectedSavingsOnly, combinedTotalSavings, totalPlannedMonthlySavings, defaultState]

/-- C8 counterexample: the input `"-5"` drives `myMonthlyIncome` negative, so the
claimed non-negativity invariant of the four scalar fields is false. -/
theorem c8_counterexample_negative_scalar :
    (upsertNumber .myMonthlyIncome (parseNumberQ "-5") defaultState).myMonthlyIncome < 0 := by
  decide

/-- C8 amended: a scalar field stores exactly the parsed value; that value is always
finite, but not necessarily non-negative — the parser keeps a leading minus sign, so
`"-5"` parses to `-5` and the field becomes negative. -/
theorem c8_amended_scalar_stores_parsed (st : FinanceState) (k : ScalarKey) (s : String) :
    scalarField k (upsertNumber k (parseNumberQ s) st) = parseNumberQ s ∧
    (parseNumber s).isFinite = true ∧
    parseNumberQ "-5" = -5 := by
  refine ⟨?_, parseNumber_isFinite s, by decide⟩
  cases k <;> rfl

/-- C9: `removeEntry` with an id not present among the entries is a no-op, not an
error: the entries (and the whole state) are unchanged. -/
theorem c9_removeEntry_absent_noop (st : FinanceState) (i : String)
    (h : ∀ e ∈ st.entries, e.id ≠ i) :
    (removeEntry i st).entries = st.entries ∧ removeEntry i st = st := by
  have he : st.entries.filter (fun e => e.id != i) = st.entries := by
    apply List.filter_eq_self.mpr
    intro e hme
    simpa [bne_iff_ne] using h e hme
  refine ⟨he, ?_⟩
  unfold removeEntry
  rw [he]

/-- Witness for C9 at a concrete input. -/
theorem c9_removeEntry_absent_noop_witness :
    (removeEntry "zz" defaultState).entries = defaultState.entries ∧
    removeEntry "zz" defaultState = defaultState :=
  c9_removeEntry_absent_noop defaultState "zz" (by intro e he; simp [defaultState] at he)

/-- C10: the projection-months value always lies in `[1, 360]`: non-numeric or empty
input yields 1, inputs below 1 clamp to 1, inputs above 360 clamp to 360. -/
theorem c10_projectionMonths_in_range (s : String) :
    (∃ q : ℚ, projectionMonthsFromInput s = .val q ∧ 1 ≤ q ∧ q ≤ 360) ∧
    projectionMonthsFromInput "" = .val 1 ∧
    projectionMonthsFromInput "abc" = .val 1 ∧
    projectionMonthsFromInput "0.5" = .val 1 ∧
    projectionMonthsFromInput "400" = .val 360 := by
  refine ⟨clampMonths_mem (jsStringToNumber s), by decide, by decide, ?_, by decide⟩
  have h0 : jsStringToNumber "0.5" = .val (1 / 2) := by
    have h : jsStringToNumber "0.5"
        = .val ((digitsVal ['0'] : ℚ) + (digitsVal ['5'] : ℚ) / (10 : ℚ) ^ 1) := rfl
    have h1 : digitsVal ['0'] = 0 := rfl
    have h2 : digitsVal ['5'] = 5 := rfl
    rw [h, h1, h2]
    norm_num
  simp only [projectionMonthsFromInput, h0]
  norm_num [JSNum.truthy, JSNum.jsMin, JSNum.jsMax, min_def, max_def]

/-- C5: on sign-in with no remote document and a local state, the local state is
adopted and written as the remote document; once the remote document exists, a
sign-in never writes it again — even if local storage has changed in the meantime. -/
theorem c5_migration_exactly_once (w : World) (l l2 : StoredDoc) :
    (w.remoteDoc = none → w.localStore = some l →
       (signInLoad w).remoteDoc = some l ∧ (signInLoad w).appState = adoptLocal l) ∧
    (∀ d, w.remoteDoc = some d →
       (signInLoad w).remoteDoc = some d ∧ (signInLoad w).appState = adoptRemote d ∧
       (signInLoad w).localStore = w.localStore) ∧
    (w.remoteDoc = none → w.localStore = some l →
       (signInLoad { signInLoad w with localStore := some l2 }).remoteDoc = some l) := by
  refine ⟨?_, ?_, ?_⟩
  · intro hr hl
    simp [signInLoad, hr, hl]
  · intro d hd
    simp [signInLoad, hd]
  · intro hr hl
    have h1 : (signInLoad w).remoteDoc = some l := by simp [signInLoad, hr, hl]
    have h2 : ({ signInLoad w with localStore := some l2 } : World).remoteDoc = some l := h1
    generalize hW : ({ signInLoad w with localStore := some l2 } : World) = W at h2 ⊢
    simp [signInLoad, h2]

/-- Witness for C5: a first sign-in migrates the local document, and a second sign-in
with different local contents leaves the remote document as migrated. -/
theorem c5_migration_exactly_once_witness :
    (signInLoad ⟨none, some {}, defaultState⟩).remoteDoc = some {} ∧
    (signInLoad
        { signInLoad ⟨none, some {}, defaultState⟩ with
          localStore := some { myMonthlyIncome := some 1 } }).remoteDoc = some {} :=
  ⟨((c5_migration_exactly_once ⟨none, some {}, defaultState⟩ {} { myMonthlyIncome := some 1 }).1
      rfl rfl).1,
    (c5_migration_exactly_once ⟨none, some {}, defaultState⟩ {} { myMonthlyIncome := some 1 }).2.2
      rfl rfl⟩

/-- C6: on every load path (remote document, migration, anonymous local storage), a
missing sequence field among `entries`, `savingsHoldings`, `insurances` is adopted as
the empty sequence, and a persist-then-reload round trip reproduces the state
field for field. -/
theorem c6_adoption_defaults_and_roundtrip (d : StoredDoc) (st : FinanceState) :
    (adoptRemote d).entries = d.entries.getD [] ∧
    (adoptRemote d).savingsHoldings = d.savingsHoldings.getD [] ∧
    (adoptRemote d).insurances = d.insurances.getD [] ∧
    (adoptLocal d).entries = d.entries.getD [] ∧
    (adoptLocal d).savingsHoldings = d.savingsHoldings.getD [] ∧
    (adoptLocal d).insurances = d.insurances.getD [] ∧
    adoptRemote (toStoredDoc st) = st ∧
    adoptLocal (toStoredDoc st) = st :=
  ⟨rfl, rfl, rfl, rfl, rfl, rfl, rfl, rfl⟩

/-- An entry whose only contribution to the `"Rent"` expense bucket has value `0`. -/
def c3ZeroExpenseEntry : MonthlyEntry :=
  { id := "e0", month := "2025-01", savings := 0, expenses := 0,
    savingsType := none, expenseType := some "Rent", comment := none }

/-- C3 counterexample: the claim promises a group whenever at least one member
contributes to a type even with value 0, but `ExpensesPie` skips entries with
`expenses ≤ 0`: a single zero-expense `"Rent"` entry yields no `"Rent"` group. -/
theorem c3_counterexample_zero_expense_member :
    c3ZeroExpenseEntry.expenses = 0 ∧
    c3ZeroExpenseEntry.expenseType = some "Rent" ∧
    ¬∃ p ∈ expensesByType [c3ZeroExpenseEntry], p.1 = "Rent" := by
  decide

/-- C3 amended: neither aggregation ever emits a memberless group; holdings-by-type
emits a group exactly when some holding has that type (even with amount 0), while
expenses-by-type emits a group exactly when some entry of that type has expenses
strictly greater than 0 (a zero-expense member creates no group). -/
theorem c3_amended_group_membership (entries : List MonthlyEntry)
    (holdings : List SavingsHolding) (t : String) :
    ((∃ p ∈ expensesByType entries, p.1 = t) ↔
       ∃ e ∈ entries, 0 < e.expenses ∧ e.expenseType.getD "Misc" = t) ∧
    ((∃ p ∈ holdingsByType holdings, p.1 = t) ↔ ∃ h ∈ holdings, h.type = t) := by
  constructor
  · have h1 : (∃ p ∈ expensesByType entries, p.1 = t)
        ↔ t ∈ (expensesByType entries).map Prod.fst := List.mem_map.symm
    refine h1.trans ((mem_keys_groupAccum _ _ _ _ _).trans ?_)
    simp
  · have h1 : (∃ p ∈ holdingsByType holdings, p.1 = t)
        ↔ t ∈ (holdingsByType holdings).map Prod.fst := List.mem_map.symm
    refine h1.trans ((mem_keys_groupAccum _ _ _ _ _).trans ?_)
    simp

/-- An entry carrying a savings type but zero savings. -/
def c7ZeroSavingsEntry : MonthlyEntry :=
  { id := "e1", month := "2025-01", savings := 0, expenses := 0,
    savingsType := some "Gold", expenseType := none, comment := none }

/-- C7 counterexample: the claim promises one row per type in the union of
savings-holding types and monthly-entry savings types, but `ProjectionByType` only
collects savings types of entries with `savings > 0`: an entry with savings type
`"Gold"` and savings `0` produces no `"Gold"` row. -/
theorem c7_counterexample_zero_savings_type :
    c7ZeroSavingsEntry.savingsType = some "Gold" ∧
    ¬∃ r ∈ projectionRows 1 [] [c7ZeroSavingsEntry], r.type = "Gold" := by
  decide

/-- C7 amended: the table has exactly one row per type in the union of the holding
types and the savings types of entries with `savings > 0`; each row satisfies
`projected = holdings total + months * (savings total over entries with savings > 0)`;
rows are sorted by descending `projected`. -/
theorem c7_amended_projection_by_type (months : ℚ) (holdings : List SavingsHolding)
    (entries : List MonthlyEntry) (t : String) :
    ((∃ r ∈ projectionRows months holdings entries, r.type = t) ↔
       ((∃ h ∈ holdings, h.type = t) ∨
        ∃ e ∈ entries, 0 < e.savings ∧ e.savingsType.getD "Unspecified" = t)) ∧
    ((projectionRows months holdings entries).map (fun r => r.type)).Nodup ∧
    (∀ r ∈ projectionRows months holdings entries,
       r.current = holdingAmountForType holdings r.type ∧
       r.monthly = monthlySavingsForType entries r.type ∧
       r.projected
         = holdingAmountForType holdings r.type
           + months * monthlySavingsForType entries r.type) ∧
    (projectionRows months holdings entries).Pairwise (fun a b => b.projected ≤ a.projected) := by
  have hperm : (projectionRows months holdings entries).Perm
      ((jsSetDedup ((holdingsByType holdings).map Prod.fst
          ++ (monthlySavingsByType entries).map Prod.fst)).map
        (projRowFor months holdings entries)) := perm_sortRowsDesc _
  have htype : ∀ u, (projRowFor months holdings entries u).type = u := fun u => rfl
  have hcur : ∀ u, lookupD (holdingsByType holdings) u = holdingAmountForType holdings u := by
    intro u
    rw [holdingsByType, lookupD_groupAccum, holdingAmountForType]
    simp
  have hmon : ∀ u,
      lookupD (monthlySavingsByType entries) u = monthlySavingsForType entries u := by
    intro u
    rw [monthlySavingsByType, lookupD_groupAccum, monthlySavingsForType]
  refine ⟨?_, ?_, ?_, pairwise_sortRowsDesc _⟩
  · constructor
    · rintro ⟨r, hr, rfl⟩
      obtain ⟨u, hu, rfl⟩ := List.mem_map.mp (hperm.subset hr)
      rcases List.mem_append.mp ((mem_jsSetDedup _ _).mp hu) with h | h
      · left
        obtain ⟨e, he, _, hkey⟩ := (mem_keys_groupAccum _ _ _ _ _).mp h
        exact ⟨e, he, by rw [htype]; exact hkey⟩
      · right
        obtain ⟨e, he, hcond, hkey⟩ := (mem_keys_groupAccum _ _ _ _ _).mp h
        exact ⟨e, he, by simpa using hcond, by rw [htype]; exact hkey⟩
    · intro h
      have ht : t ∈ jsSetDedup ((holdingsByType holdings).map Prod.fst
          ++ (monthlySavingsByType entries).map Prod.fst) := by
        apply (mem_jsSetDedup _ _).mpr
        apply List.mem_append.mpr
        rcases h with ⟨e, he, hk⟩ | ⟨e, he, hs, hk⟩
        · exact .inl ((mem_keys_groupAccum _ _ _ _ _).mpr ⟨e, he, rfl, hk⟩)
        · exact .inr ((mem_keys_groupAccum _ _ _ _ _).mpr ⟨e, he, by simpa using hs, hk⟩)
      exact ⟨projRowFor months holdings entries t,
        hperm.mem_iff.mpr (List.mem_map_of_mem _ ht), htype t⟩
  · have hcomp : ((fun r : ProjRow => r.type) ∘ projRowFor months holdings entries)
        = fun u => u := rfl
    have hmap : ((jsSetDedup ((holdingsByType holdings).map Prod.fst
          ++ (monthlySavingsByType entries).map Prod.fst)).map
            (projRowFor months holdings entries)).map (fun r => r.type)
        = jsSetDedup ((holdingsByType holdings).map Prod.fst
          ++ (monthlySavingsByType entries).map Prod.fst) := by
      rw [List.map_map, hcomp]
      exact List.map_id' _
    exact ((hperm.map (fun r => r.type)).nodup_iff).mpr (by rw [hmap]; exact nodup_jsSetDedup _)
  · intro r hr
    obtain ⟨u, hu, rfl⟩ := List.mem_map.mp (hperm.subset hr)
    exact ⟨by simp [projRowFor, hcur], by simp [projRowFor, hmon],
      by simp [projRowFor, hcur, hmon]⟩

/-- C2 counterexample: with a provided id that matches no existing entry, the
prepended entry keeps the provided id `"x"` — no freshly generated id (here
`"fresh"`) is synthesized, contradicting the claim's "otherwise" branch. -/
theorem c2_counterexample_provided_id_kept :
    ((addOrUpdateEntry "fresh" "2025-01" { id := some "x" } defaultState).entries.map
        (fun e => e.id) = ["x"]) ∧
    (addOrUpdateEntry "fresh" "2025-01" { id := some "x" } defaultState).entries.map
        (fun e => e.id) ≠ ["fresh"] := by
  decide

/-- C2 amended: if the partial's id matches an existing entry, that entry is replaced
at its original position and the length is unchanged; otherwise the built entry is
prepended with the provided id if present, else with the freshly generated id; with no
id the prepended entry carries the fresh id, and a follow-up call with that id updates
in place without changing the length. -/
theorem c2_amended_upsert_semantics (freshId nowMonth : String) (p : PartialEntry)
    (st : FinanceState) (hfresh : ∀ e ∈ st.entries, e.id ≠ freshId) :
    (∀ i, p.id = some i → (∃ e ∈ st.entries, e.id = i) →
       ((addOrUpdateEntry freshId nowMonth p st).entries.length = st.entries.length ∧
        ∀ (j : ℕ) (e : MonthlyEntry), st.entries[j]? = some e →
          ((e.id = i →
             (addOrUpdateEntry freshId nowMonth p st).entries[j]?
               = some (buildEntry freshId nowMonth p)) ∧
           (e.id ≠ i →
             (addOrUpdateEntry freshId nowMonth p st).entries[j]? = some e)))) ∧
    (∀ i, p.id = some i → (∀ e ∈ st.entries, e.id ≠ i) →
       ((addOrUpdateEntry freshId nowMonth p st).entries
          = buildEntry freshId nowMonth p :: st.entries ∧
        (buildEntry freshId nowMonth p).id = i)) ∧
    (p.id = none →
       ((addOrUpdateEntry freshId nowMonth p st).entries
          = buildEntry freshId nowMonth p :: st.entries ∧
        (buildEntry freshId nowMonth p).id = freshId ∧
        (addOrUpdateEntry freshId nowMonth p st).entries.length = st.entries.length + 1 ∧
        ∀ (f2 m2 : String) (p2 : PartialEntry), p2.id = some freshId →
          (addOrUpdateEntry f2 m2 p2 (addOrUpdateEntry freshId nowMonth p st)).entries.length
            = (addOrUpdateEntry freshId nowMonth p st).entries.length)) := by
  refine ⟨?_, ?_, ?_⟩
  · intro i hpi hex
    have hi : p.id.getD freshId = i := by rw [hpi]; rfl
    obtain ⟨e0, he0, hid0⟩ := hex
    have hfound : st.entries.any (fun e => e.id == p.id.getD freshId) = true :=
      List.any_eq_true.mpr ⟨e0, he0, by rw [hi]; exact beq_iff_eq.mpr hid0⟩
    constructor
    · simp [addOrUpdateEntry, hfound]
    · intro j e hje
      have hmap : (addOrUpdateEntry freshId nowMonth p st).entries[j]?
          = (st.entries[j]?).map
              (fun e => if e.id == p.id.getD freshId then buildEntry freshId nowMonth p else e) := by
        simp [addOrUpdateEntry, hfound]
      constructor
      · intro hei
        rw [hmap, hje]
        simp [hi, hei]
      · intro hei
        have hb : (e.id == i) = false := beq_eq_false_iff_ne.mpr hei
        rw [hmap, hje]
        simp [hi, hb, hei]
  · intro i hpi hnone
    have hi : p.id.getD freshId = i := by rw [hpi]; rfl
    have hfound : st.entries.any (fun e => e.id == p.id.getD freshId) = false := by
      rw [hi]
      apply List.any_eq_false.mpr
      intro e he
      simpa using hnone e he
    constructor
    · simp [addOrUpdateEntry, hfound]
    · simp [buildEntry, hpi]
  · intro hpnone
    have hi : p.id.getD freshId = freshId := by rw [hpnone]; rfl
    have hfound : st.entries.any (fun e => e.id == p.id.getD freshId) = false := by
      rw [hi]
      apply List.any_eq_false.mpr
      intro e he
      simpa using hfresh e he
    have hent : (addOrUpdateEntry freshId nowMonth p st).entries
        = buildEntry freshId nowMonth p :: st.entries := by
      simp [addOrUpdateEntry, hfound]
    have hbid : (buildEntry freshId nowMonth p).id = freshId := by
      simp [buildEntry, hpnone]
    refine ⟨hent, hbid, by rw [hent]; simp, ?_⟩
    intro f2 m2 p2 hp2
    have hi2 : p2.id.getD f2 = freshId := by rw [hp2]; rfl
    have hfound2 : (addOrUpdateEntry freshId nowMonth p st).entries.any
        (fun e => e.id == p2.id.getD f2) = true := by
      rw [hent, hi2]
      exact List.any_eq_true.mpr
        ⟨buildEntry freshId nowMonth p, List.mem_cons_self .., beq_iff_eq.mpr hbid⟩
    have key : ∀ w : FinanceState, w.entries.any (fun e => e.id == p2.id.getD f2) = true →
        (addOrUpdateEntry f2 m2 p2 w).entries.length = w.entries.length := by
      intro w hw
      simp [addOrUpdateEntry, hw]
    exact key _ hfound2

/-- Witness for C2 amended: with no id, a fresh entry is prepended to the empty state. -/
theorem c2_amended_upsert_semantics_witness :
    (addOrUpdateEntry "f1" "2025-01" {} defaultState).entries
      = [buildEntry "f1" "2025-01" {}] :=
  ((c2_amended_upsert_semantics "f1" "2025-01" {} defaultState
      (by intro e he; simp [defaultState] at he)).2.2 rfl).1

/-- Witness for C3 amended: a zero-amount holding still produces its group. -/
theorem c3_amended_group_membership_witness :
    ∃ p ∈ holdingsByType [{ id := "h1", type := "MF", amount := 0 }], p.1 = "MF" :=
  (c3_amended_group_membership [] [{ id := "h1", type := "MF", amount := 0 }] "MF").2.mpr
    ⟨{ id := "h1", type := "MF", amount := 0 }, by simp, rfl⟩

/-- Witness for C7 amended: with one holding of type MF, a row for MF exists and its
projection satisfies the amended formula. -/
theorem c7_amended_projection_by_type_witness :
    ∃ r ∈ projectionRows 2 [{ id := "h1", type := "MF", amount := 100 }] [],
      r.projected
        = holdingAmountForType [{ id := "h1", type := "MF", amount := 100 }] r.type
          + 2 * monthlySavingsForType [] r.type := by
  have h := c7_amended_projection_by_type 2 [{ id := "h1", type := "MF", amount := 100 }] [] "MF"
  obtain ⟨r, hr, -⟩ := h.1.mpr (.inl ⟨{ id := "h1", type := "MF", amount := 100 }, by simp, rfl⟩)
  exact ⟨r, hr, (h.2.2.1 r hr).2.2⟩
